import Mathlib

/-!
Verification of the workout-tracker session engine and rest timer.

The definitions below are a shallow embedding of the TypeScript source
(src/App.tsx, src/hooks/useTimer.ts, src/types.ts).  JavaScript numbers
are modelled as rationals (all the logic only copies and compares them,
so no floating-point rounding is involved); timestamps are naturals.
The impure id generator createId (Date.now and Math.random) is modelled
by caller-supplied fresh identifiers: no claim constrains the generated
ids themselves.
-/

/-- WorkoutSet from src/types.ts: one logged attempt. -/
structure WorkoutSet where
  id : String
  weight : Rat
  reps : Rat
  completed : Bool
deriving DecidableEq, Repr

/-- SessionEntry from src/types.ts: the sets of one exercise in a session. -/
structure SessionEntry where
  id : String
  exerciseId : String
  notes : String
  sets : List WorkoutSet
deriving DecidableEq, Repr

/-- WorkoutSession from src/types.ts: one workout occurrence. -/
structure WorkoutSession where
  id : String
  date : Nat
  routineId : Option String
  entries : List SessionEntry
  ended : Bool
deriving DecidableEq, Repr

/-- Routine from src/types.ts: an ordered template of exercises. -/
structure Routine where
  id : String
  name : String
  exerciseIds : List String
deriving DecidableEq, Repr

/-- Exercise from src/types.ts (the bodyPart enum is kept as a string). -/
structure Exercise where
  id : String
  name : String
  bodyPart : String
deriving DecidableEq, Repr

/-!
Personal records (src/App.tsx, personalRecords useMemo, lines 137-162).
The source iterates over the exercise catalog and, for each exercise,
folds the running best (weight, reps) pair over
  [...workoutHistory, activeWorkout].filter(Boolean).filter(s => s.ended),
looking in each session at the first entry for that exercise and at its
completed sets, replacing the running pair only on strictly greater
weight, and finally publishes the pair only when its weight is positive.
-/

/-- Body of the innermost forEach: replace the running record only when the
set has strictly greater weight (ties keep the earlier set). -/
def prUpdate (pr : Rat × Rat) (s : WorkoutSet) : Rat × Rat :=
  if s.weight > pr.1 then (s.weight, s.reps) else pr

/-- Fold the completed sets of one history entry into the running record. -/
def prOfEntry (pr : Rat × Rat) (e : SessionEntry) : Rat × Rat :=
  (e.sets.filter (·.completed)).foldl prUpdate pr

/-- Fold one session into the running record: the source looks up the first
entry for the exercise with entries.find. -/
def prOfSession (exId : String) (pr : Rat × Rat) (s : WorkoutSession) : Rat × Rat :=
  match s.entries.find? (fun e => e.exerciseId == exId) with
  | some e => prOfEntry pr e
  | none => pr

/-- The per-exercise personal-record query.  allHistory appends the active
workout (when present) to the history, exactly as the source builds
[...workoutHistory, activeWorkout].filter(Boolean); the subsequent
filter(s => s.ended) is applied before folding. -/
def personalRecord (exId : String) (hist : List WorkoutSession)
    (active : Option WorkoutSession) : Option (Rat × Rat) :=
  let allHistory := hist ++ active.toList
  let pr := ((allHistory.filter (·.ended)).foldl (prOfSession exId) (0, 0))
  if pr.1 > 0 then some pr else none

/-- The records map over the whole catalog, as built by the source. -/
def personalRecords (exercises : List Exercise) (hist : List WorkoutSession)
    (active : Option WorkoutSession) : List (String × Rat × Rat) :=
  exercises.foldl (fun recs ex =>
    match personalRecord ex.id hist active with
    | some pr => recs ++ [(ex.id, pr)]
    | none => recs) []

/-- A live session holding one completed 10 kg x 5 set of exercise ex1. -/
def liveSession : WorkoutSession :=
  { id := "id_active"
    date := 100
    routineId := none
    entries := [{ id := "id_entry", exerciseId := "ex1", notes := ""
                  sets := [{ id := "id_set", weight := 10, reps := 5, completed := true }] }]
    ended := false }

/-- C1: the spec says the personal-record query scans all ended sessions plus
the active session if present.  The code appends the active workout to the
scan list but then filters on session.ended, and an active session always has
ended = false, so its completed sets never reach the fold: with an empty
history and a live session holding a completed 10 kg set, the query reports
no record, while the very same session counted once it is marked ended. -/
theorem personalRecord_excludes_active_session :
    personalRecord "ex1" [] (some liveSession) = none
      ∧ personalRecord "ex1" [{ liveSession with ended := true }] none
          = some (10, 5) := by
  constructor <;> rfl

/-- All completed sets recorded for an exercise, across the history and the
active session (every matching entry of every session, ended or not). -/
def recordedCompletedSets (exId : String) (hist : List WorkoutSession)
    (active : Option WorkoutSession) : List WorkoutSet :=
  (hist ++ active.toList).flatMap (fun t =>
    (t.entries.filter (fun e => e.exerciseId == exId)).flatMap
      (fun e => e.sets.filter (·.completed)))

/-- Folding sets of weight zero never moves the record off (0, 0). -/
theorem prSets_zero (l : List WorkoutSet) (h : ∀ s ∈ l, s.weight = 0) :
    l.foldl prUpdate (0, 0) = (0, 0) := by
  induction l with
  | nil => rfl
  | cons x xs ih =>
    have hx : x.weight = 0 := h x (by simp)
    have hstep : prUpdate (0, 0) x = (0, 0) := by simp [prUpdate, hx]
    rw [List.foldl_cons, hstep]
    exact ih (fun s hs => h s (by simp [hs]))

/-- An entry whose completed sets all weigh zero leaves the record at (0, 0). -/
theorem prOfEntry_zero (e : SessionEntry)
    (h : ∀ s ∈ e.sets, s.completed = true → s.weight = 0) :
    prOfEntry (0, 0) e = (0, 0) := by
  apply prSets_zero
  intro s hs
  exact h s (List.mem_of_mem_filter hs) (by simpa using List.of_mem_filter hs)

/-- A session whose completed sets for the exercise all weigh zero leaves the
record at (0, 0). -/
theorem prOfSession_zero (exId : String) (t : WorkoutSession)
    (h : ∀ e ∈ t.entries, e.exerciseId = exId →
      ∀ s ∈ e.sets, s.completed = true → s.weight = 0) :
    prOfSession exId (0, 0) t = (0, 0) := by
  unfold prOfSession
  cases hf : t.entries.find? (fun e => e.exerciseId == exId) with
  | none => rfl
  | some e =>
    exact prOfEntry_zero e
      (h e (List.mem_of_find?_eq_some hf) (by simpa using List.find?_some hf))

/-- Folding sessions whose relevant completed sets all weigh zero leaves the
record at (0, 0). -/
theorem prSessions_zero (exId : String) (sessions : List WorkoutSession)
    (h : ∀ t ∈ sessions, ∀ e ∈ t.entries, e.exerciseId = exId →
      ∀ s ∈ e.sets, s.completed = true → s.weight = 0) :
    sessions.foldl (prOfSession exId) (0, 0) = (0, 0) := by
  induction sessions with
  | nil => rfl
  | cons t ts ih =>
    rw [List.foldl_cons, prOfSession_zero exId t (h t (by simp))]
    exact ih (fun u hu => h u (by simp [hu]))

/-- C10: the personal-record query exposes a record only when the maximum
completed weight is strictly positive: when every completed set recorded for
the exercise weighs zero the query reports none, and any reported record has
strictly positive weight. -/
theorem personalRecord_positive_only (exId : String) (hist : List WorkoutSession)
    (active : Option WorkoutSession) :
    ((∀ s ∈ recordedCompletedSets exId hist active, s.weight = 0) →
        personalRecord exId hist active = none)
    ∧ ∀ w r, personalRecord exId hist active = some (w, r) → 0 < w := by
  constructor
  · intro h
    have hz : ((hist ++ active.toList).filter (·.ended)).foldl
        (prOfSession exId) (0, 0) = (0, 0) := by
      apply prSessions_zero
      intro t ht e he hex s hs hc
      apply h
      unfold recordedCompletedSets
      refine List.mem_flatMap.mpr ⟨t, List.mem_of_mem_filter ht, ?_⟩
      refine List.mem_flatMap.mpr ⟨e, List.mem_filter.mpr ⟨he, by simp [hex]⟩, ?_⟩
      exact List.mem_filter.mpr ⟨hs, by simp [hc]⟩
    simp only [personalRecord]
    rw [hz]
    simp
  · intro w r hsome
    simp only [personalRecord] at hsome
    split at hsome
    · rename_i hpos
      rw [Option.some_inj] at hsome
      rw [hsome] at hpos
      exact hpos
    · exact absurd hsome (by simp)

/-- A session whose only completed set for ex1 has weight zero. -/
def zeroWeightSession : WorkoutSession :=
  { id := "id_zero", date := 50, routineId := none
    entries := [{ id := "id_ze", exerciseId := "ex1", notes := ""
                  sets := [{ id := "id_zs", weight := 0, reps := 8, completed := true }] }]
    ended := true }

/-- Witness for C10 at a concrete input: an ended session whose only completed
set weighs zero yields no personal record. -/
theorem personalRecord_positive_only_witness :
    personalRecord "ex1" [zeroWeightSession] none = none :=
  (personalRecord_positive_only "ex1" [zeroWeightSession] none).1 (by decide)

/-!
addExerciseToWorkout (src/App.tsx, lines 355-367): on a deep copy of the
active workout, look for an entry with the given exercise id; when none is
found, push a fresh entry holding one zero-weight, zero-rep, incomplete set
and commit, otherwise leave the workout untouched.  The two fresh ids that
createId would produce are passed in as arguments.
-/

/-- The zero set seeded for a newly added exercise. -/
def zeroSet (newSetId : String) : WorkoutSet :=
  { id := newSetId, weight := 0, reps := 0, completed := false }

/-- addExerciseToWorkout from src/App.tsx. -/
def addExerciseToWorkout (newEntryId newSetId : String) (exId : String)
    (w : WorkoutSession) : WorkoutSession :=
  match w.entries.find? (fun e => e.exerciseId == exId) with
  | some _ => w
  | none =>
    { w with entries := w.entries ++
        [{ id := newEntryId, exerciseId := exId, notes := "", sets := [zeroSet newSetId] }] }

/-- C8: adding the same exercise twice yields the same entry list as adding it
once, whatever fresh ids each call drew; moreover the call is a no-op exactly
when an entry for the exercise already exists, and otherwise appends exactly
one new entry carrying a single zero-weight, zero-rep, incomplete set. -/
theorem addExerciseToWorkout_idempotent (id1 id2 id3 id4 exId : String)
    (w : WorkoutSession) :
    addExerciseToWorkout id3 id4 exId (addExerciseToWorkout id1 id2 exId w)
        = addExerciseToWorkout id1 id2 exId w
    ∧ ((∃ e ∈ w.entries, e.exerciseId = exId) →
        addExerciseToWorkout id1 id2 exId w = w)
    ∧ ((∀ e ∈ w.entries, e.exerciseId ≠ exId) →
        (addExerciseToWorkout id1 id2 exId w).entries = w.entries ++
          [{ id := id1, exerciseId := exId, notes := "", sets := [zeroSet id2] }]) := by
  refine ⟨?_, ?_, ?_⟩
  · cases hf : w.entries.find? (fun e => e.exerciseId == exId) with
    | some e => simp [addExerciseToWorkout, hf]
    | none =>
      have hinner : addExerciseToWorkout id1 id2 exId w =
          { w with entries := w.entries ++
              [{ id := id1, exerciseId := exId, notes := "", sets := [zeroSet id2] }] } := by
        simp [addExerciseToWorkout, hf]
      rw [hinner]
      simp [addExerciseToWorkout, hf]
  · intro ⟨e, he, hex⟩
    cases hf : w.entries.find? (fun e => e.exerciseId == exId) with
    | some e₀ => simp [addExerciseToWorkout, hf]
    | none =>
      exact absurd (by simpa using hex) (List.find?_eq_none.mp hf e he)
  · intro h
    have hf : w.entries.find? (fun e => e.exerciseId == exId) = none :=
      List.find?_eq_none.mpr (fun e he => by simpa using h e he)
    simp [addExerciseToWorkout, hf]

/-- Witness for C8 at a concrete input: adding ex2 twice to the live session
equals adding it once, and the second clause fires on the existing entry. -/
theorem addExerciseToWorkout_idempotent_witness :
    addExerciseToWorkout "idA" "idB" "ex2"
        (addExerciseToWorkout "id1" "id2" "ex2" liveSession)
      = addExerciseToWorkout "id1" "id2" "ex2" liveSession
    ∧ addExerciseToWorkout "id1" "id2" "ex1" liveSession = liveSession := by
  refine ⟨(addExerciseToWorkout_idempotent "id1" "id2" "idA" "idB" "ex2" liveSession).1,
    (addExerciseToWorkout_idempotent "id1" "id2" "idA" "idB" "ex1" liveSession).2.1 ?_⟩
  exact ⟨{ id := "id_entry", exerciseId := "ex1", notes := ""
           sets := [{ id := "id_set", weight := 10, reps := 5, completed := true }] },
    by decide⟩

/-!
Rest timer (src/hooks/useTimer.ts).  The hook keeps timeLeft and isActive
state plus a ref to the scheduled interval.  startTimer first calls stopTimer
(clearing any scheduled interval), resets timeLeft to the configured
duration, marks the timer active and schedules a fresh interval; each
interval tick decrements timeLeft, and on reaching the last second it stops
the timer, invokes the completion callback and pins timeLeft to 0.
Intervals are modelled by tokens: startTimer allocates a fresh token, and a
tick carries the token of the interval that fired it; a tick whose token does
not match the live interval corresponds to an interval already cleared by
clearInterval, which the browser never fires, so it leaves the state
unchanged.  Callback invocations are counted in fires.  Durations are
naturals, as the app only configures whole-second rest durations.
-/

/-- State of the useTimer hook, with interval tokens and a callback count. -/
structure TimerState where
  timeLeft : Nat
  isActive : Bool
  timerRef : Option Nat
  nextToken : Nat
  fires : Nat
deriving DecidableEq, Repr

/-- stopTimer: clear any scheduled interval and leave the Running state.
No callback fires and the remaining time is simply abandoned. -/
def stopTimer (s : TimerState) : TimerState :=
  { s with timerRef := none, isActive := false }

/-- startTimer: stop first, reset timeLeft to the duration, mark active and
schedule a fresh interval. -/
def startTimer (duration : Nat) (s : TimerState) : TimerState :=
  let s1 := stopTimer s
  { s1 with
    timeLeft := duration
    isActive := true
    timerRef := some s1.nextToken
    nextToken := s1.nextToken + 1 }

/-- One elapsed second reported by the interval with the given token. -/
def tick (t : Nat) (s : TimerState) : TimerState :=
  if s.timerRef = some t then
    if s.timeLeft ≤ 1 then
      { stopTimer s with timeLeft := 0, fires := s.fires + 1 }
    else
      { s with timeLeft := s.timeLeft - 1 }
  else s

/-- Iterated ticks of the interval with the given token. -/
def ticks (t : Nat) : Nat → TimerState → TimerState
  | 0, s => s
  | n + 1, s => ticks t n (tick t s)

/-- Ticks can be peeled off at the far end as well. -/
theorem ticks_succ_right (t n : Nat) (s : TimerState) :
    ticks t (n + 1) s = tick t (ticks t n s) := by
  induction n generalizing s with
  | zero => rfl
  | succ m ih => rw [ticks, ih, ticks]

/-- A state without a live interval absorbs every tick. -/
theorem ticks_of_cleared (t m : Nat) (s : TimerState) (h : s.timerRef = none) :
    ticks t m s = s := by
  induction m with
  | zero => rfl
  | succ k ih => rw [ticks_succ_right, ih, tick, h]; simp

/-- While more seconds remain than ticks elapse, the countdown just counts
down: the interval stays live and timeLeft drops by one per tick. -/
theorem ticks_countdown (t : Nat) (k : Nat) (s : TimerState)
    (href : s.timerRef = some t) (hk : k < s.timeLeft) :
    ticks t k s = { s with timeLeft := s.timeLeft - k } := by
  induction k generalizing s with
  | zero => simp [ticks]
  | succ m ih =>
    have h1 : 1 < s.timeLeft := by omega
    have hstep : tick t s = { s with timeLeft := s.timeLeft - 1 } := by
      rw [tick, href]
      simp [Nat.not_le_of_lt h1]
    have hrec := ih { s with timeLeft := s.timeLeft - 1 } href
      (by show m < s.timeLeft - 1; omega)
    rw [ticks, hstep, hrec]
    cases s
    simp only []
    congr 1
    omega

/-- C5: from any state, starting the timer at a duration d of at least 1 and
letting the scheduled interval fire d times leaves the timer Idle with the
interval cleared and the completion callback invoked exactly once for that
run, and no number of further seconds can ever fire the callback again for
that run. -/
theorem timer_completes_once (d : Nat) (s : TimerState) (hd : 1 ≤ d) :
    (ticks s.nextToken d (startTimer d s)).isActive = false
    ∧ (ticks s.nextToken d (startTimer d s)).timerRef = none
    ∧ (ticks s.nextToken d (startTimer d s)).fires = s.fires + 1
    ∧ ∀ m, (ticks s.nextToken m (ticks s.nextToken d (startTimer d s))).fires
        = s.fires + 1 := by
  obtain ⟨k, rfl⟩ : ∃ k, d = k + 1 := ⟨d - 1, by omega⟩
  have hrun : ticks s.nextToken k (startTimer (k + 1) s)
      = { startTimer (k + 1) s with timeLeft := k + 1 - k } :=
    ticks_countdown s.nextToken k (startTimer (k + 1) s) rfl
      (by show k < k + 1; omega)
  have h1 : k + 1 - k = 1 := by omega
  have hlast : ticks s.nextToken (k + 1) (startTimer (k + 1) s)
      = { timeLeft := 0, isActive := false, timerRef := none,
          nextToken := s.nextToken + 1, fires := s.fires + 1 } := by
    rw [ticks_succ_right, hrun, h1]
    simp [tick, startTimer, stopTimer]
  refine ⟨by rw [hlast], by rw [hlast], by rw [hlast], ?_⟩
  intro m
  rw [hlast, ticks_of_cleared _ _ _ rfl]

/-- An Idle timer state with no scheduled interval, as the hook starts. -/
def timerInit : TimerState :=
  { timeLeft := 60, isActive := false, timerRef := none, nextToken := 0, fires := 0 }

/-- Witness for C5 at a concrete input: start(5) followed by five ticks of the
allocated interval ends Idle having fired the callback exactly once. -/
theorem timer_completes_once_witness :
    (ticks timerInit.nextToken 5 (startTimer 5 timerInit)).isActive = false
    ∧ (ticks timerInit.nextToken 5 (startTimer 5 timerInit)).fires
        = timerInit.fires + 1 :=
  ⟨(timer_completes_once 5 timerInit (by decide)).1,
   (timer_completes_once 5 timerInit (by decide)).2.2.1⟩

/-- C6: starting the timer always yields a Running state whose remaining time
is the requested duration, whatever the prior state; a restart before any
tick leaves the later duration as the time read next; a tick of the interval
superseded by the restart is never observed (the token invariant says every
allocated interval token is below nextToken); and stopping an Idle timer with
no scheduled interval changes nothing. -/
theorem timer_start_supersedes (d d1 d2 t : Nat) (s : TimerState) :
    (startTimer d s).isActive = true
    ∧ (startTimer d s).timeLeft = d
    ∧ (startTimer d2 (startTimer d1 s)).timeLeft = d2
    ∧ (s.timerRef = some t → t < s.nextToken →
        tick t (startTimer d s) = startTimer d s)
    ∧ (s.isActive = false → s.timerRef = none → stopTimer s = s) := by
  refine ⟨rfl, rfl, rfl, ?_, ?_⟩
  · intro _ hlt
    have hne : (startTimer d s).timerRef ≠ some t := by
      show some s.nextToken ≠ some t
      intro h
      have := Option.some.inj h
      omega
    simp [tick, hne]
  · intro hact href
    cases s
    simp_all [stopTimer]

/-- A Running timer state holding the live interval token 0. -/
def timerRunning : TimerState :=
  { timeLeft := 5, isActive := true, timerRef := some 0, nextToken := 1, fires := 0 }

/-- Witness for C6 at concrete inputs: restarting at 3 from a running
countdown of 5 reads remaining 3, the superseded tick is absorbed, and
stopping the Idle initial state is a no-op. -/
theorem timer_start_supersedes_witness :
    (startTimer 3 (startTimer 5 timerInit)).timeLeft = 3
    ∧ tick 0 (startTimer 3 timerRunning) = startTimer 3 timerRunning
    ∧ stopTimer timerInit = timerInit :=
  ⟨(timer_start_supersedes 3 5 3 0 timerInit).2.2.1,
   (timer_start_supersedes 3 5 3 0 timerRunning).2.2.2.1 (by decide) (by decide),
   (timer_start_supersedes 3 5 3 0 timerInit).2.2.2.2 (by decide) (by decide)⟩

/-!
updateSet (src/App.tsx, lines 317-327): on a deep copy of the active workout,
merge the patch into entries[entryIndex].sets[setIndex]; when the patch
carries completed = true while the original set was not completed, signal the
rest timer to start.  The object spread over the original set keeps every
field the patch does not carry, and no path in updateSet ever stops the
timer.  Indices outside the session are a programming-contract violation in
the source (the interface cannot reach them), so the theorems assume valid
indices.
-/

/-- A patch of WorkoutSet fields; absent fields are kept from the original. -/
structure SetPatch where
  weight : Option Rat := none
  reps : Option Rat := none
  completed : Option Bool := none
deriving DecidableEq, Repr

/-- Merge a patch over a set, as the object spread does. -/
def applyPatch (s : WorkoutSet) (p : SetPatch) : WorkoutSet :=
  { s with
    weight := p.weight.getD s.weight
    reps := p.reps.getD s.reps
    completed := p.completed.getD s.completed }

/-- The truthiness test on newSetData.completed in the source: the patch
carries the completed field and it is true. -/
def patchCompletedTruthy (p : SetPatch) : Bool :=
  p.completed == some true

/-- updateSet: the updated workout together with the flag telling whether
startTimer was signalled. -/
def updateSet (w : WorkoutSession) (entryIndex setIndex : Nat) (p : SetPatch) :
    WorkoutSession × Bool :=
  let originalSet := (w.entries[entryIndex]?).bind (fun e => e.sets[setIndex]?)
  let w1 := { w with entries := w.entries.modify (fun e =>
      { e with sets := e.sets.modify (fun s => applyPatch s p) setIndex }) entryIndex }
  let signal := match originalSet with
    | some o => patchCompletedTruthy p && !o.completed
    | none => false
  (w1, signal)

/-- updateSet coupled to the rest timer, as in the source: startTimer runs
exactly when the signal fires, and stopTimer is never called. -/
def updateSetStep (w : WorkoutSession) (ei si : Nat) (p : SetPatch)
    (restDuration : Nat) (ts : TimerState) : WorkoutSession × TimerState :=
  let r := updateSet w ei si p
  (r.1, if r.2 then startTimer restDuration ts else ts)

/-- C7: updateSet signals the rest timer exactly when the patch flips the
completed flag from false to true; on that transition the timer is started,
and on every other update, including flipping completed back from true to
false, the timer state is left exactly as it was, so an in-flight countdown
is never stopped by updateSet. -/
theorem updateSet_timer_signal (w : WorkoutSession) (ei si : Nat) (p : SetPatch)
    (d : Nat) (ts : TimerState) (e : SessionEntry) (st : WorkoutSet)
    (he : w.entries[ei]? = some e) (hs : e.sets[si]? = some st) :
    ((updateSet w ei si p).2 = true ↔ (p.completed = some true ∧ st.completed = false))
    ∧ ((p.completed = some true ∧ st.completed = false) →
        (updateSetStep w ei si p d ts).2 = startTimer d ts)
    ∧ (¬(p.completed = some true ∧ st.completed = false) →
        (updateSetStep w ei si p d ts).2 = ts) := by
  have horig : (w.entries[ei]?).bind (fun e => e.sets[si]?) = some st := by
    rw [he]
    exact hs
  have hsig : (updateSet w ei si p).2 = (patchCompletedTruthy p && !st.completed) := by
    simp only [updateSet, horig]
  have hiff : (updateSet w ei si p).2 = true ↔
      (p.completed = some true ∧ st.completed = false) := by
    rw [hsig]
    simp [patchCompletedTruthy]
  refine ⟨hiff, ?_, ?_⟩
  · intro hc
    simp only [updateSetStep, if_pos (hiff.mpr hc)]
  · intro hc
    have : (updateSet w ei si p).2 = false := by
      cases hv : (updateSet w ei si p).2 with
      | false => rfl
      | true => exact absurd (hiff.mp hv) hc
    simp only [updateSetStep, this, if_neg]
    simp

/-- A session whose only set for ex1 is not yet completed. -/
def pendingSession : WorkoutSession :=
  { id := "id_pending"
    date := 90
    routineId := none
    entries := [{ id := "id_pe", exerciseId := "ex1", notes := ""
                  sets := [{ id := "id_ps", weight := 10, reps := 5, completed := false }] }]
    ended := false }

/-- Witness for C7 at concrete inputs: completing the pending set signals the
timer, while un-completing an already completed set leaves the running timer
untouched. -/
theorem updateSet_timer_signal_witness :
    (updateSet pendingSession 0 0 { completed := some true }).2 = true
    ∧ (updateSetStep liveSession 0 0 { completed := some false } 60 timerRunning).2
        = timerRunning := by
  constructor
  · exact (updateSet_timer_signal pendingSession 0 0 { completed := some true } 60
      timerRunning
      { id := "id_pe", exerciseId := "ex1", notes := ""
        sets := [{ id := "id_ps", weight := 10, reps := 5, completed := false }] }
      { id := "id_ps", weight := 10, reps := 5, completed := false }
      (by decide) (by decide)).1.mpr (by decide)
  · exact (updateSet_timer_signal liveSession 0 0 { completed := some false } 60
      timerRunning
      { id := "id_entry", exerciseId := "ex1", notes := ""
        sets := [{ id := "id_set", weight := 10, reps := 5, completed := true }] }
      { id := "id_set", weight := 10, reps := 5, completed := true }
      (by decide) (by decide)).2.2 (by decide)

/-!
App-level state: the slices of App.tsx state the session lifecycle touches.
The mirroring effect (src/App.tsx, lines 86-102) runs after every change of
the active workout: it looks its session id up in unfinishedWorkouts with
findIndex, overwrites the slot when found and pushes at the end otherwise.
The stored value in the source is a deep copy produced by
JSON.parse(JSON.stringify(activeWorkout)); under the value semantics of this
embedding the copy is the value itself, and the observable content of the
deep-copy guarantee is that further changes to the working copy never change
the stored value.
-/

/-- The history, resume list and active workout of App. -/
structure AppState where
  workoutHistory : List WorkoutSession
  unfinishedWorkouts : List WorkoutSession
  activeWorkout : Option WorkoutSession
deriving DecidableEq, Repr

/-- The upsert the mirroring effect performs on the unfinished list. -/
def upsertById (l : List WorkoutSession) (aw : WorkoutSession) :
    List WorkoutSession :=
  match l.findIdx? (fun x => x.id == aw.id) with
  | some i => l.set i aw
  | none => l ++ [aw]

/-- The mirroring effect itself, run after every active-workout mutation. -/
def mirrorActive (st : AppState) : AppState :=
  match st.activeWorkout with
  | some aw => { st with unfinishedWorkouts := upsertById st.unfinishedWorkouts aw }
  | none => st

/-- A later mutation of the working copy of the active session, applied
without running the mirroring effect again. -/
def mutateActive (f : WorkoutSession → WorkoutSession) (st : AppState) : AppState :=
  { st with activeWorkout := st.activeWorkout.map f }

/-- The upsert unfolded one list element at a time. -/
theorem upsertById_cons (x aw : WorkoutSession) (xs : List WorkoutSession) :
    upsertById (x :: xs) aw =
      if x.id == aw.id then aw :: xs else x :: upsertById xs aw := by
  cases hx : x.id == aw.id with
  | true =>
    simp only [upsertById, List.findIdx?_cons, hx, if_pos, List.set_cons_zero, if_true]
  | false =>
    rw [if_neg (by simp [hx])]
    simp only [upsertById, List.findIdx?_cons, hx]
    rw [if_neg (by simp), List.findIdx?_succ]
    cases h : xs.findIdx? (fun w => w.id == aw.id) with
    | none => simp [h]
    | some i => simp [h]

/-- After an upsert into a list holding at most one entry with the session id,
exactly one entry with that id remains and it is the upserted value. -/
theorem upsertById_spec (l : List WorkoutSession) (aw : WorkoutSession)
    (huniq : l.countP (fun x => x.id == aw.id) ≤ 1) :
    (upsertById l aw).countP (fun x => x.id == aw.id) = 1
    ∧ ∀ x ∈ upsertById l aw, x.id = aw.id → x = aw := by
  induction l with
  | nil =>
    constructor
    · simp [upsertById]
    · intro x hx hid
      simp [upsertById] at hx
      exact hx
  | cons y ys ih =>
    rw [upsertById_cons]
    cases hy : y.id == aw.id with
    | true =>
      rw [if_pos (by simp [hy])]
      have hzero : ys.countP (fun x => x.id == aw.id) = 0 := by
        have := huniq
        rw [List.countP_cons_of_pos _ _ (by simp [hy])] at this
        omega
      constructor
      · rw [List.countP_cons_of_pos _ _ (by simp)]
        omega
      · intro x hx hid
        cases hx with
        | head => rfl
        | tail _ hmem =>
          exact absurd (by simpa using hid) (List.countP_eq_zero.mp hzero x hmem)
    | false =>
      rw [if_neg (by simp [hy])]
      have huniq2 : ys.countP (fun x => x.id == aw.id) ≤ 1 := by
        have := huniq
        rw [List.countP_cons_of_neg _ _ (by simp [hy])] at this
        exact this
      obtain ⟨hcount, hval⟩ := ih huniq2
      constructor
      · rw [List.countP_cons_of_neg _ _ (by simp [hy])]
        exact hcount
      · intro x hx hid
        cases hx with
        | head => exact absurd hid (by simpa using hy)
        | tail _ hmem => exact hval x hmem hid

/-- C4: after the mirroring effect runs for the active session, the
unfinished-workout collection holds exactly one element keyed by the session
id and that element equals the active session; and any further mutation of
the working copy performed without a new mirror write leaves the mirrored
collection, in particular the previously mirrored copy, unchanged. -/
theorem mirror_unique_and_isolated (st : AppState) (aw : WorkoutSession)
    (ha : st.activeWorkout = some aw)
    (huniq : st.unfinishedWorkouts.countP (fun x => x.id == aw.id) ≤ 1) :
    ((mirrorActive st).unfinishedWorkouts.countP (fun x => x.id == aw.id) = 1)
    ∧ (∀ x ∈ (mirrorActive st).unfinishedWorkouts, x.id = aw.id → x = aw)
    ∧ ∀ f : WorkoutSession → WorkoutSession,
        (mutateActive f (mirrorActive st)).unfinishedWorkouts
          = (mirrorActive st).unfinishedWorkouts := by
  have hm : mirrorActive st
      = { st with unfinishedWorkouts := upsertById st.unfinishedWorkouts aw } := by
    simp [mirrorActive, ha]
  obtain ⟨h1, h2⟩ := upsertById_spec st.unfinishedWorkouts aw huniq
  refine ⟨by rw [hm]; exact h1, by rw [hm]; exact h2, ?_⟩
  intro f
  rfl

/-- A state whose resume list holds a stale copy of the live session next to
an unrelated unfinished workout. -/
def demoResumeState : AppState :=
  { workoutHistory := []
    unfinishedWorkouts := [pendingSession, { liveSession with entries := [] }]
    activeWorkout := some liveSession }

/-- Witness for C4 at a concrete input: mirroring the live session into a
resume list already holding a stale copy leaves exactly one element with its
id, equal to the live session. -/
theorem mirror_unique_and_isolated_witness :
    ((mirrorActive demoResumeState).unfinishedWorkouts.countP
        (fun x => x.id == liveSession.id) = 1)
    ∧ ∀ x ∈ (mirrorActive demoResumeState).unfinishedWorkouts,
        x.id = liveSession.id → x = liveSession := by
  have h := mirror_unique_and_isolated demoResumeState liveSession rfl (by decide)
  exact ⟨h.1, h.2.1⟩

/-!
finishWorkout (src/App.tsx, lines 376-390): when a workout is active it is
stamped ended with the finishing date, its entries with no completed set are
filtered out, the result is prepended to history only when some entry
survives, the mirror of the session is removed from the unfinished list by
id, and the active workout is cleared.  Nothing happens without an active
workout.
-/

/-- True when an entry keeps at least one completed set. -/
def entryHasCompleted (e : SessionEntry) : Bool :=
  e.sets.any (·.completed)

/-- finishWorkout from src/App.tsx. -/
def finishWorkout (now : Nat) (st : AppState) : AppState :=
  match st.activeWorkout with
  | none => st
  | some aw =>
    let finished := { aw with
      ended := true
      date := now
      entries := aw.entries.filter entryHasCompleted }
    { workoutHistory :=
        if finished.entries.length > 0 then finished :: st.workoutHistory
        else st.workoutHistory
      unfinishedWorkouts := st.unfinishedWorkouts.filter (fun x => x.id != aw.id)
      activeWorkout := none }

/-- C3: finalizing an active session clears the active workout, removes
exactly the mirror entries carrying its id from the unfinished list, keeps an
entry of the session exactly when it has a completed set, and prepends the
stamped, filtered session to history precisely when some entry survives; in
particular a session with entries but no completed set anywhere leaves the
history unchanged. -/
theorem finishWorkout_spec (now : Nat) (st : AppState) (aw : WorkoutSession)
    (ha : st.activeWorkout = some aw) :
    (finishWorkout now st).activeWorkout = none
    ∧ (∀ x ∈ (finishWorkout now st).unfinishedWorkouts, x.id ≠ aw.id)
    ∧ (∀ x ∈ st.unfinishedWorkouts, x.id ≠ aw.id →
        x ∈ (finishWorkout now st).unfinishedWorkouts)
    ∧ (∀ e, e ∈ aw.entries.filter entryHasCompleted ↔
        e ∈ aw.entries ∧ ∃ s ∈ e.sets, s.completed = true)
    ∧ (aw.entries.filter entryHasCompleted ≠ [] →
        (finishWorkout now st).workoutHistory =
          { aw with
            ended := true
            date := now
            entries := aw.entries.filter entryHasCompleted } :: st.workoutHistory)
    ∧ (aw.entries.filter entryHasCompleted = [] →
        (finishWorkout now st).workoutHistory = st.workoutHistory)
    ∧ ((∀ e ∈ aw.entries, ∀ s ∈ e.sets, s.completed = false) →
        (finishWorkout now st).workoutHistory = st.workoutHistory) := by
  have hact : (finishWorkout now st).activeWorkout = none := by
    simp [finishWorkout, ha]
  have hunf : (finishWorkout now st).unfinishedWorkouts = st.unfinishedWorkouts.filter (fun x => x.id != aw.id) := by
    simp [finishWorkout, ha]
  have hhist : (finishWorkout now st).workoutHistory = (if (aw.entries.filter entryHasCompleted).length > 0 then { aw with ended := true, date := now, entries := aw.entries.filter entryHasCompleted } :: st.workoutHistory else st.workoutHistory) := by
    simp [finishWorkout, ha]
  refine ⟨hact, ?_, ?_, ?_, ?_, ?_, ?_⟩
  · intro x hx
    rw [hunf] at hx
    have := List.of_mem_filter hx
    simpa using this
  · intro x hx hne
    rw [hunf]
    exact List.mem_filter.mpr ⟨hx, by simpa using hne⟩
  · intro e
    constructor
    · intro hmem
      refine ⟨List.mem_of_mem_filter hmem, ?_⟩
      have := List.of_mem_filter hmem
      simpa [entryHasCompleted] using this
    · intro ⟨hmem, hex⟩
      exact List.mem_filter.mpr ⟨hmem, by simpa [entryHasCompleted] using hex⟩
  · intro hne
    rw [hhist, if_pos (List.length_pos.mpr hne)]
  · intro hnil
    rw [hhist, hnil]
    simp
  · intro hnone
    have hnil : aw.entries.filter entryHasCompleted = [] := by
      rw [List.filter_eq_nil_iff]
      intro e he
      simp [entryHasCompleted]
      intro s hs
      exact hnone e he s hs
    rw [hhist, hnil]
    simp

/-- A state in which the live session, with its one completed set, is active
over a history holding an ended session and a mirror of itself. -/
def demoFinishState : AppState :=
  { workoutHistory := [zeroWeightSession]
    unfinishedWorkouts := [liveSession]
    activeWorkout := some liveSession }

/-- A state in which the pending session, whose only set is incomplete, is
active. -/
def demoDiscardState : AppState :=
  { workoutHistory := [zeroWeightSession]
    unfinishedWorkouts := [pendingSession]
    activeWorkout := some pendingSession }

/-- Witness for C3 at concrete inputs: finishing the live session prepends
its stamped copy and clears everything, and finishing the pending session,
which has an entry but no completed set, leaves history unchanged. -/
theorem finishWorkout_spec_witness :
    (finishWorkout 200 demoFinishState).workoutHistory =
      { liveSession with
        ended := true
        date := 200
        entries := liveSession.entries.filter entryHasCompleted }
        :: [zeroWeightSession]
    ∧ (finishWorkout 200 demoDiscardState).workoutHistory = [zeroWeightSession]
    ∧ (finishWorkout 200 demoFinishState).activeWorkout = none := by
  refine ⟨(finishWorkout_spec 200 demoFinishState liveSession rfl).2.2.2.2.1
      (by decide), ?_, (finishWorkout_spec 200 demoFinishState liveSession rfl).1⟩
  exact (finishWorkout_spec 200 demoDiscardState pendingSession rfl).2.2.2.2.2.2
    (by decide)

/-!
startWorkout (src/App.tsx, lines 266-298).  Given a routine, the most recent
ended session for it is picked by filtering history on ended and routineId
and sorting descending by date (the source comparator b.date - a.date; the
stable sort is embedded as insertion sort under the date-ge relation), then
one entry is seeded per routine exercise: the completed sets of the prior
entry for that exercise are carried over with completed reset, or one zero
set is seeded when the prior session has none.  The source sets
routineId = routine?.id || null, so a routine with the (never generated)
empty-string id would map to null, and the theorem assumes a non-empty id.
Without a routine the session starts blank.
-/

/-- The descending-by-date order used by the sort comparator. -/
def dateGe (a b : WorkoutSession) : Prop := b.date ≤ a.date

instance : DecidableRel dateGe := fun a b => Nat.decLe b.date a.date

instance : IsTotal WorkoutSession dateGe := ⟨fun a b => Nat.le_total b.date a.date⟩

instance : IsTrans WorkoutSession dateGe :=
  ⟨fun _ _ _ hab hbc => Nat.le_trans hbc hab⟩

/-- The prior-session lookup of startWorkout: filter, sort descending by
date, take the first. -/
def selectPrior (r : Routine) (hist : List WorkoutSession) : Option WorkoutSession :=
  ((hist.filter (fun s => s.ended && s.routineId == some r.id)).insertionSort dateGe).head?

/-- Carried-over sets: one per prior completed set, weight and reps kept,
completed reset; ids come from the fresh-id supply, indexed by position. -/
def carrySets (setIdOf : Nat → String) : Nat → List WorkoutSet → List WorkoutSet
  | _, [] => []
  | i, s :: rest =>
    { id := setIdOf i, weight := s.weight, reps := s.reps, completed := false }
      :: carrySets setIdOf (i + 1) rest

/-- One seeded entry of startWorkout for one routine exercise. -/
def seedEntry (entryIdOf : String → String) (setIdOf : String → Nat → String)
    (lastSession : Option WorkoutSession) (exId : String) : SessionEntry :=
  let lastEntry := lastSession.bind
    (fun s => s.entries.find? (fun e => e.exerciseId == exId))
  { id := entryIdOf exId
    exerciseId := exId
    notes := ""
    sets := match lastEntry with
      | some le =>
        if (le.sets.filter (·.completed)).length > 0 then
          carrySets (setIdOf exId) 0 (le.sets.filter (·.completed))
        else [zeroSet (setIdOf exId 0)]
      | none => [zeroSet (setIdOf exId 0)] }

/-- startWorkout from src/App.tsx, with the impure createId calls replaced by
the caller-supplied fresh-id suppliers. -/
def startWorkout (sessionId : String) (entryIdOf : String → String)
    (setIdOf : String → Nat → String) (now : Nat) (routine : Option Routine)
    (hist : List WorkoutSession) : WorkoutSession :=
  { id := sessionId
    date := now
    routineId := match routine with
      | some r => if r.id = "" then none else some r.id
      | none => none
    entries := match routine with
      | some r => r.exerciseIds.map (seedEntry entryIdOf setIdOf (selectPrior r hist))
      | none => []
    ended := false }

/-- The weight, reps and completed flag of a set, the fields the claims about
seeding and carrying over speak of (fresh ids are unconstrained). -/
def setProj (s : WorkoutSet) : Rat × Rat × Bool := (s.weight, s.reps, s.completed)

/-- Stated from the spec wording, for comparison with the find-based code:
all completed sets a session holds for an exercise, across all its
entries. -/
def specCompletedSetsFor (s : WorkoutSession) (exId : String) : List WorkoutSet :=
  (s.entries.filter (fun e => e.exerciseId == exId)).flatMap
    (fun e => e.sets.filter (·.completed))

/-- The seeded sets the claim expects for one exercise, as projections. -/
def expectedSeedSets (prior : WorkoutSession) (exId : String) :
    List (Rat × Rat × Bool) :=
  if (specCompletedSetsFor prior exId).isEmpty then [(0, 0, false)]
  else (specCompletedSetsFor prior exId).map (fun s => (s.weight, s.reps, false))

/-- When entries carry pairwise distinct exercise ids, the completed sets for
an exercise across all entries are exactly those of the first entry found for
it. -/
theorem filterFlat_eq_find (entries : List SessionEntry) (exId : String)
    (hnd : (entries.map (·.exerciseId)).Nodup) :
    (entries.filter (fun e => e.exerciseId == exId)).flatMap
        (fun e => e.sets.filter (·.completed)) =
      match entries.find? (fun e => e.exerciseId == exId) with
      | some e => e.sets.filter (·.completed)
      | none => [] := by
  induction entries with
  | nil => rfl
  | cons x xs ih =>
    rw [List.map_cons, List.nodup_cons] at hnd
    obtain ⟨hnotin, hnd2⟩ := hnd
    cases hx : x.exerciseId == exId with
    | false =>
      rw [List.filter_cons_of_neg (by simp [hx]), List.find?_cons_of_neg _ (by simp [hx])]
      exact ih hnd2
    | true =>
      have hxid : x.exerciseId = exId := by simpa using hx
      have hrest : xs.filter (fun e => e.exerciseId == exId) = [] := by
        rw [List.filter_eq_nil_iff]
        intro e he hcontra
        apply hnotin
        rw [hxid]
        have hli : e.exerciseId = exId := by simpa using hcontra
        rw [← hli]
        exact List.mem_map_of_mem _ he
      rw [List.filter_cons_of_pos (by simp [hx]), hrest,
        List.find?_cons_of_pos _ (by simp [hx])]
      simp

/-- Projections of the carried-over sets: weights and reps kept, completed
reset, one for one. -/
theorem carrySets_proj (setIdOf : Nat → String) (i : Nat) (l : List WorkoutSet) :
    (carrySets setIdOf i l).map setProj = l.map (fun s => (s.weight, s.reps, false)) := by
  induction l generalizing i with
  | nil => rfl
  | cons x xs ih => simp [carrySets, setProj, ih]

/-- When a matching ended session exists, the prior-session lookup yields
one. -/
theorem selectPrior_isSome (r : Routine) (hist : List WorkoutSession)
    (hex : ∃ s ∈ hist, s.ended = true ∧ s.routineId = some r.id) :
    ∃ prior, selectPrior r hist = some prior := by
  obtain ⟨s, hs, he, hr⟩ := hex
  have hmem : s ∈ hist.filter (fun t => t.ended && t.routineId == some r.id) :=
    List.mem_filter.mpr ⟨hs, by simp [he, hr]⟩
  have hperm := List.perm_insertionSort dateGe
    (hist.filter (fun t => t.ended && t.routineId == some r.id))
  cases hL : (hist.filter (fun t => t.ended && t.routineId == some r.id)).insertionSort dateGe with
  | nil =>
    rw [hL] at hperm
    exact absurd (hperm.symm.eq_nil ▸ hmem) (by simp)
  | cons a t =>
    exact ⟨a, by rw [selectPrior, hL]; rfl⟩

/-- The selected prior session is an ended session of the routine from the
history, of maximal date among those. -/
theorem selectPrior_spec (r : Routine) (hist : List WorkoutSession)
    (prior : WorkoutSession) (h : selectPrior r hist = some prior) :
    prior ∈ hist ∧ prior.ended = true ∧ prior.routineId = some r.id
    ∧ ∀ s ∈ hist, s.ended = true → s.routineId = some r.id → s.date ≤ prior.date := by
  have hperm := List.perm_insertionSort dateGe
    (hist.filter (fun t => t.ended && t.routineId == some r.id))
  have hsorted := List.sorted_insertionSort dateGe
    (hist.filter (fun t => t.ended && t.routineId == some r.id))
  obtain ⟨rest, hcons⟩ : ∃ rest,
      (hist.filter (fun t => t.ended && t.routineId == some r.id)).insertionSort dateGe
        = prior :: rest := by
    cases hL : (hist.filter (fun t => t.ended && t.routineId == some r.id)).insertionSort dateGe with
    | nil => rw [selectPrior, hL] at h; exact absurd h (by simp)
    | cons a t =>
      rw [selectPrior, hL] at h
      exact ⟨t, by rw [hL, List.head?_cons] at *; exact congrArg (· :: t) (by simpa using h)⟩
  have hmemf : prior ∈ hist.filter (fun t => t.ended && t.routineId == some r.id) :=
    hperm.mem_iff.mp (hcons ▸ List.mem_cons_self prior rest)
  have hpred := List.of_mem_filter hmemf
  have hprops : prior.ended = true ∧ prior.routineId = some r.id := by
    simpa using hpred
  refine ⟨List.mem_of_mem_filter hmemf, hprops.1, hprops.2, ?_⟩
  intro s hs hse hsr
  have hsf : s ∈ hist.filter (fun t => t.ended && t.routineId == some r.id) :=
    List.mem_filter.mpr ⟨hs, by simp [hse, hsr]⟩
  have hsl : s ∈ prior :: rest := hcons ▸ hperm.mem_iff.mpr hsf
  cases hsl with
  | head => exact Nat.le_refl _
  | tail _ hmem2 =>
    rw [hcons] at hsorted
    exact List.rel_of_sorted_cons hsorted s hmem2

/-- Projections of one seeded entry: its exercise id is the routine exercise
and its sets carry the prior completed sets, or one zero set when there are
none. -/
theorem seedEntry_proj (entryIdOf : String → String) (setIdOf : String → Nat → String)
    (prior : WorkoutSession) (exId : String)
    (hnd : (prior.entries.map (·.exerciseId)).Nodup) :
    (seedEntry entryIdOf setIdOf (some prior) exId).exerciseId = exId
    ∧ (seedEntry entryIdOf setIdOf (some prior) exId).sets.map setProj
        = expectedSeedSets prior exId := by
  have hfind := filterFlat_eq_find prior.entries exId hnd
  refine ⟨rfl, ?_⟩
  cases hf : prior.entries.find? (fun e => e.exerciseId == exId) with
  | none =>
    have hcs : specCompletedSetsFor prior exId = [] := by
      unfold specCompletedSetsFor
      rw [hfind, hf]
    simp [seedEntry, hf, expectedSeedSets, hcs, zeroSet, setProj]
  | some le =>
    have hcs : specCompletedSetsFor prior exId = le.sets.filter (·.completed) := by
      unfold specCompletedSetsFor
      rw [hfind, hf]
    by_cases hlen : (le.sets.filter (·.completed)).length > 0
    · have hne : (le.sets.filter (·.completed)).isEmpty = false := by
        cases hl : le.sets.filter (·.completed) with
        | nil => rw [hl] at hlen; simp at hlen
        | cons a t => simp
      simp [seedEntry, hf, hlen, expectedSeedSets, hcs, hne, carrySets_proj]
    · have hnil : le.sets.filter (·.completed) = [] := by
        cases hl : le.sets.filter (·.completed) with
        | nil => rfl
        | cons a t => rw [hl] at hlen; simp at hlen
      simp [seedEntry, hf, hnil, expectedSeedSets, hcs, zeroSet, setProj]

/-- C2: starting a workout from a routine with at least one prior ended
session for it selects a prior session of maximal date among the ended
sessions with the routine id, seeds one entry per routine exercise in order,
each carrying the prior completed sets for that exercise with weight and
reps kept and completed reset, or one zero-weight, zero-rep, incomplete set
when the prior session has none; the new session is not ended and carries
the routine id.  Starting without a routine yields a blank session: no
entries, no routine id, not ended. -/
theorem startWorkout_spec (sessionId : String) (entryIdOf : String → String)
    (setIdOf : String → Nat → String) (now : Nat) (r : Routine)
    (hist : List WorkoutSession)
    (hid : r.id ≠ "")
    (hex : ∃ s ∈ hist, s.ended = true ∧ s.routineId = some r.id)
    (hnd : ∀ s ∈ hist, (s.entries.map (·.exerciseId)).Nodup) :
    (startWorkout sessionId entryIdOf setIdOf now (some r) hist).ended = false
    ∧ (startWorkout sessionId entryIdOf setIdOf now (some r) hist).routineId = some r.id
    ∧ (∃ prior, selectPrior r hist = some prior
        ∧ prior ∈ hist ∧ prior.ended = true ∧ prior.routineId = some r.id
        ∧ (∀ s ∈ hist, s.ended = true → s.routineId = some r.id → s.date ≤ prior.date)
        ∧ (startWorkout sessionId entryIdOf setIdOf now (some r) hist).entries.map
            (fun e => (e.exerciseId, e.sets.map setProj))
          = r.exerciseIds.map (fun exId => (exId, expectedSeedSets prior exId)))
    ∧ (startWorkout sessionId entryIdOf setIdOf now none hist).entries = []
    ∧ (startWorkout sessionId entryIdOf setIdOf now none hist).routineId = none
    ∧ (startWorkout sessionId entryIdOf setIdOf now none hist).ended = false := by
  obtain ⟨prior, hsel⟩ := selectPrior_isSome r hist hex
  obtain ⟨hmem, hend, hrid, hmax⟩ := selectPrior_spec r hist prior hsel
  refine ⟨rfl, ?_, ⟨prior, hsel, hmem, hend, hrid, hmax, ?_⟩, rfl, rfl, rfl⟩
  · show (if r.id = "" then none else some r.id) = some r.id
    rw [if_neg hid]
  · show (r.exerciseIds.map (seedEntry entryIdOf setIdOf (selectPrior r hist))).map
        (fun e => (e.exerciseId, e.sets.map setProj))
      = r.exerciseIds.map (fun exId => (exId, expectedSeedSets prior exId))
    rw [hsel, List.map_map]
    apply List.map_congr_left
    intro exId _
    obtain ⟨h1, h2⟩ := seedEntry_proj entryIdOf setIdOf prior exId (hnd prior hmem)
    simp only [Function.comp_apply, h1, h2]

/-- A two-exercise routine. -/
def demoRoutine : Routine :=
  { id := "r1", name := "push", exerciseIds := ["ex1", "ex2"] }

/-- A prior ended session of demoRoutine: one completed and one incomplete
set for ex1, nothing for ex2. -/
def demoPrior : WorkoutSession :=
  { id := "id_prior", date := 10, routineId := some "r1"
    entries := [{ id := "id_pr1", exerciseId := "ex1", notes := ""
                  sets := [{ id := "s1", weight := 10, reps := 10, completed := true },
                           { id := "s2", weight := 12, reps := 8, completed := false }] }]
    ended := true }

/-- Witness for C2 at a concrete input: starting from demoRoutine over the
one-session history carries the completed 10 kg x 10 set for ex1 (completed
reset) and seeds a zero set for ex2, and stamps the routine id. -/
theorem startWorkout_spec_witness :
    (startWorkout "w1" (fun e => e) (fun _ _ => "s") 20 (some demoRoutine)
        [demoPrior]).routineId = some "r1"
    ∧ (startWorkout "w1" (fun e => e) (fun _ _ => "s") 20 (some demoRoutine)
        [demoPrior]).entries.map (fun e => (e.exerciseId, e.sets.map setProj))
      = [("ex1", [((10 : Rat), (10 : Rat), false)]), ("ex2", [(0, 0, false)])] := by
  have h := startWorkout_spec "w1" (fun e => e) (fun _ _ => "s") 20 demoRoutine
    [demoPrior] (by decide) ⟨demoPrior, by decide⟩ (by decide)
  refine ⟨h.2.1, ?_⟩
  obtain ⟨prior, hsel, _, _, _, _, hmap⟩ := h.2.2.1
  have hps : selectPrior demoRoutine [demoPrior] = some demoPrior := by decide
  rw [hps] at hsel
  rw [hmap, (Option.some.inj hsel).symm]
  decide

/-!
importData (src/App.tsx, lines 459-497).  The parsed document must carry
exercises, routines and workoutHistory as arrays (Array.isArray); then all
three collections are written, exercises first migrated so that a missing or
unknown bodyPart becomes the category other, and restDuration is overwritten
only when the document carries a numeric one.  Any other document shape, or a
parse failure, lands in the catch: a user-visible error and no write at all.
The stored collections are modelled at the JSON level, as the backing store
persists JSON.
-/

/-- A parsed JSON value, as JSON.parse yields. -/
inductive JValue where
  | null
  | bool (b : Bool)
  | num (q : Rat)
  | str (s : String)
  | arr (elems : List JValue)
  | obj (fields : List (String × JValue))
deriving BEq, Repr

/-- Property access data.key: the first field with the key, none standing
for undefined. -/
def jGet (v : JValue) (k : String) : Option JValue :=
  match v with
  | .obj fs => (fs.find? (fun p => p.1 == k)).map (·.2)
  | _ => none

/-- The body-part catalog BODY_PARTS of the source. -/
def BODY_PARTS : List String :=
  ["chest", "back", "legs", "arms", "shoulders", "belly", "other"]

/-- The test ex.bodyPart && BODY_PARTS.includes(ex.bodyPart): only a string
among the body parts passes; the empty string is not among them, so JS
truthiness adds nothing beyond membership. -/
def validBodyPart (v : Option JValue) : Bool :=
  match v with
  | some (.str s) => BODY_PARTS.contains s
  | _ => false

/-- The object spread over ex with bodyPart set: replace the field in place
when present, append it otherwise.  (Spreading a non-object keeps only the
new field; array elements would also keep index keys, a fringe none of the
claims touch.) -/
def jSetField (v : JValue) (k : String) (val : JValue) : JValue :=
  match v with
  | .obj fs =>
    if (fs.find? (fun p => p.1 == k)).isSome then
      .obj (fs.map (fun p => if p.1 == k then (k, val) else p))
    else .obj (fs ++ [(k, val)])
  | _ => .obj [(k, val)]

/-- The per-exercise migration of importData. -/
def migrateExercise (ex : JValue) : JValue :=
  if validBodyPart (jGet ex "bodyPart") then
    jSetField ex "bodyPart" ((jGet ex "bodyPart").getD .null)
  else jSetField ex "bodyPart" (.str "other")

/-- Array.isArray on an accessed property. -/
def isJArr : Option JValue → Bool
  | some (.arr _) => true
  | _ => false

/-- The element list of an array-valued property. -/
def jArrElems : Option JValue → List JValue
  | some (.arr xs) => xs
  | _ => []

/-- The stored top-level collections importData may write. -/
structure StoredData where
  exercises : JValue
  routines : JValue
  workoutHistory : JValue
  restDuration : JValue
deriving BEq, Repr

/-- The conditional restDuration overwrite: only a numeric value in the
document replaces the stored one. -/
def importRestDuration (doc : JValue) (st : StoredData) : JValue :=
  match jGet doc "restDuration" with
  | some (.num q) => .num q
  | _ => st.restDuration

/-- importData: on the three mandatory array fields it writes all three
collections (exercises migrated) and optionally restDuration, returning true;
otherwise the state is returned untouched with false (the user-visible
error). -/
def importData (doc : JValue) (st : StoredData) : StoredData × Bool :=
  if isJArr (jGet doc "exercises") && isJArr (jGet doc "routines")
      && isJArr (jGet doc "workoutHistory") then
    ({ exercises := .arr ((jArrElems (jGet doc "exercises")).map migrateExercise)
       routines := .arr (jArrElems (jGet doc "routines"))
       workoutHistory := .arr (jArrElems (jGet doc "workoutHistory"))
       restDuration := importRestDuration doc st }, true)
  else (st, false)

/-- Replacing a present field in place leaves it first found with the new
value. -/
theorem find?_map_setField (fs : List (String × JValue)) (k : String) (val : JValue)
    (hf : (fs.find? (fun p => p.1 == k)).isSome = true) :
    (fs.map (fun p => if p.1 == k then (k, val) else p)).find? (fun p => p.1 == k)
      = some (k, val) := by
  induction fs with
  | nil => simp at hf
  | cons p ps ih =>
    cases hp : p.1 == k with
    | true =>
      rw [List.map_cons, if_pos hp, List.find?_cons_of_pos _ (by simp)]
    | false =>
      rw [List.map_cons, if_neg (by simp [hp]),
        List.find?_cons_of_neg _ (by simp [hp])]
      apply ih
      rw [List.find?_cons_of_neg _ (by simp [hp])] at hf
      exact hf

/-- Appending an absent field makes it the one found. -/
theorem find?_append_setField (fs : List (String × JValue)) (k : String) (val : JValue)
    (hf : fs.find? (fun p => p.1 == k) = none) :
    (fs ++ [(k, val)]).find? (fun p => p.1 == k) = some (k, val) := by
  rw [List.find?_append, hf]
  simp

/-- Reading back the field jSetField wrote. -/
theorem jGet_jSetField (v : JValue) (k : String) (val : JValue) :
    jGet (jSetField v k val) k = some val := by
  cases v with
  | obj fs =>
    cases hf : (fs.find? (fun p => p.1 == k)).isSome with
    | true =>
      rw [jSetField]
      simp only [hf, if_true]
      rw [jGet, find?_map_setField fs k val hf]
      rfl
    | false =>
      have hnone : fs.find? (fun p => p.1 == k) = none := by
        cases h : fs.find? (fun p => p.1 == k) with
        | none => rfl
        | some q => rw [h] at hf; simp at hf
      rw [jSetField]
      simp only [hf, Bool.false_eq_true, if_false]
      rw [jGet, find?_append_setField fs k val hnone]
      rfl
  | null => simp [jSetField, jGet]
  | bool b => simp [jSetField, jGet]
  | num q => simp [jSetField, jGet]
  | str s => simp [jSetField, jGet]
  | arr xs => simp [jSetField, jGet]

/-- Array.isArray succeeds exactly on array values. -/
theorem isJArr_iff (o : Option JValue) : isJArr o = true ↔ ∃ xs, o = some (.arr xs) := by
  cases o with
  | none => simp [isJArr]
  | some v => cases v <;> simp [isJArr]

/-- C9: the import succeeds exactly when exercises, routines and
workoutHistory are all present and array-typed; on failure nothing stored is
modified (no partial write); on success the three collections are replaced,
every imported exercise without a valid bodyPart string is migrated to the
category other, and restDuration is overwritten exactly when the document
carries a numeric one. -/
theorem importData_spec (doc : JValue) (st : StoredData) :
    ((importData doc st).2 = true ↔
      (∃ xs, jGet doc "exercises" = some (.arr xs))
      ∧ (∃ xs, jGet doc "routines" = some (.arr xs))
      ∧ (∃ xs, jGet doc "workoutHistory" = some (.arr xs)))
    ∧ ((importData doc st).2 = false → (importData doc st).1 = st)
    ∧ (∀ exs rts hs, jGet doc "exercises" = some (.arr exs) →
        jGet doc "routines" = some (.arr rts) →
        jGet doc "workoutHistory" = some (.arr hs) →
        (importData doc st).1.exercises = .arr (exs.map migrateExercise)
        ∧ (importData doc st).1.routines = .arr rts
        ∧ (importData doc st).1.workoutHistory = .arr hs
        ∧ (∀ ex ∈ exs, validBodyPart (jGet ex "bodyPart") = false →
            jGet (migrateExercise ex) "bodyPart" = some (.str "other"))
        ∧ (∀ q, jGet doc "restDuration" = some (.num q) →
            (importData doc st).1.restDuration = .num q)
        ∧ ((∀ q, jGet doc "restDuration" ≠ some (.num q)) →
            (importData doc st).1.restDuration = st.restDuration)) := by
  by_cases hc : (isJArr (jGet doc "exercises") && isJArr (jGet doc "routines")
      && isJArr (jGet doc "workoutHistory")) = true
  · have hres : importData doc st =
        ({ exercises := .arr ((jArrElems (jGet doc "exercises")).map migrateExercise)
           routines := .arr (jArrElems (jGet doc "routines"))
           workoutHistory := .arr (jArrElems (jGet doc "workoutHistory"))
           restDuration := importRestDuration doc st }, true) := by
      rw [importData, if_pos hc]
    have hparts := hc
    rw [Bool.and_assoc, Bool.and_eq_true, Bool.and_eq_true] at hparts
    refine ⟨?_, ?_, ?_⟩
    · rw [hres]
      simp only [true_iff]
      exact ⟨(isJArr_iff _).mp hparts.1, (isJArr_iff _).mp hparts.2.1,
        (isJArr_iff _).mp hparts.2.2⟩
    · intro hfalse
      rw [hres] at hfalse
      simp at hfalse
    · intro exs rts hs hex hrt hhs
      rw [hres]
      refine ⟨by rw [hex]; rfl, by rw [hrt]; rfl, by rw [hhs]; rfl, ?_, ?_, ?_⟩
      · intro ex _ hv
        rw [migrateExercise, if_neg (by simp [hv])]
        exact jGet_jSetField ex "bodyPart" (.str "other")
      · intro q hq
        show importRestDuration doc st = JValue.num q
        rw [importRestDuration, hq]
      · intro hnum
        show importRestDuration doc st = st.restDuration
        rw [importRestDuration]
        cases hrd : jGet doc "restDuration" with
        | none => rfl
        | some v =>
          cases v with
          | num q => exact absurd hrd (hnum q)
          | null => rfl
          | bool b => rfl
          | str s => rfl
          | arr xs => rfl
          | obj fs => rfl
  · have hres : importData doc st = (st, false) := by
      rw [importData, if_neg hc]
    refine ⟨?_, ?_, ?_⟩
    · rw [hres]
      constructor
      · intro h
        simp at h
      · rintro ⟨⟨exs, hex⟩, ⟨rts, hrt⟩, ⟨hs, hhs⟩⟩
        exact absurd (by rw [hex, hrt, hhs]; rfl) hc
    · intro _
      rw [hres]
    · intro exs rts hs hex hrt hhs
      exact absurd (by rw [hex, hrt, hhs]; rfl) hc

/-- A stored state before an import. -/
def demoStore : StoredData :=
  { exercises := .arr [], routines := .arr [], workoutHistory := .arr []
    restDuration := .num 60 }

/-- An imported exercise object with no bodyPart. -/
def demoExercise : JValue :=
  .obj [("id", .str "ex1"), ("name", .str "Bench")]

/-- A well-formed backup document with a numeric restDuration. -/
def demoDoc : JValue :=
  .obj [("exercises", .arr [demoExercise]),
        ("routines", .arr []),
        ("workoutHistory", .arr []),
        ("restDuration", .num 90)]

/-- A document missing the routines and workoutHistory arrays. -/
def demoBadDoc : JValue :=
  .obj [("exercises", .arr [])]

/-- Witness for C9 at concrete inputs: the malformed document changes
nothing, while the good one overwrites restDuration and lands the migrated
exercise list. -/
theorem importData_spec_witness :
    (importData demoBadDoc demoStore).1 = demoStore
    ∧ (importData demoDoc demoStore).1.restDuration = .num 90
    ∧ (importData demoDoc demoStore).1.exercises
        = .arr [migrateExercise demoExercise] := by
  have hbad := (importData_spec demoBadDoc demoStore).2.1 (by rfl)
  have hgood := (importData_spec demoDoc demoStore).2.2
    [demoExercise] [] [] rfl rfl rfl
  exact ⟨hbad, hgood.2.2.2.2.1 90 rfl, hgood.1⟩
